import Mathlib

/-!
Shallow embedding of the APE tag reader from cmus (ape.c) and proofs about it.

Machine integers are modelled as Nat/Int with explicit wrap-around where the
C code performs 32-bit arithmetic.  Buffers are byte lists; a read outside a
buffer yields 0 in this model.  A stream is a byte list together with a read
cursor; seek and read are explicit state-passing functions.
-/

namespace Ape

/-- Signed 32-bit wrap-around of an integer: the value a C `int` holds after
an operation whose exact result is the given integer (two's complement). -/
def wrap32s (x : Int) : Int := (x + 2147483648) % 4294967296 - 2147483648

/-- Reinterpretation of a C `int` value as `uint32_t`, inserted where the C
compiler applies the usual arithmetic conversions in a comparison. -/
def uns32 (x : Int) : Nat := (x % 4294967296).toNat

/-- Byte fetched from a buffer at a possibly out-of-range index; reads outside
the buffer yield 0 in this model. -/
def byteAt (buf : List Nat) (i : Int) : Nat :=
  if 0 ≤ i then buf.getD i.toNat 0 % 256 else 0

/-- get_le32 from ape.c: little-endian 32-bit load at a byte offset. -/
def get_le32 (buf : List Nat) (p : Int) : Nat :=
  byteAt buf p + byteAt buf (p + 1) * 256 + byteAt buf (p + 2) * 65536 +
    byteAt buf (p + 3) * 16777216

/-- The 8-byte preamble "APETAGEX" as byte values. -/
def preambleBytes : List Nat := [65, 80, 69, 84, 65, 71, 69, 88]

/-- struct ape_header from ape.c. -/
structure ape_header where
  version : Nat
  size : Nat
  count : Nat
  flags : Nat
deriving DecidableEq

/-- AF_IS_UTF8 from ape.c: per-item flags masked with 6 equal 0. -/
def AF_IS_UTF8 (f : Nat) : Prop := f &&& 6 = 0

/-- AF_IS_FOOTER from ape.c: tag-level flags bit 29 clear. -/
def AF_IS_FOOTER (f : Nat) : Prop := f &&& 536870912 = 0

instance (f : Nat) : Decidable (AF_IS_UTF8 f) := by unfold AF_IS_UTF8; infer_instance

instance (f : Nat) : Decidable (AF_IS_FOOTER f) := by unfold AF_IS_FOOTER; infer_instance

/-- struct APE from ape.c: owned body buffer (none while unallocated), the
iteration cursor `pos` (a C int), and the parsed header. -/
structure APE where
  buf : Option (List Nat)
  pos : Int
  header : ape_header
deriving DecidableEq

/-- ape_new from ape.c: a zero-initialized handle. -/
def ape_new : APE := ⟨none, 0, ⟨0, 0, 0, 0⟩⟩

/-- A seekable stream: its contents and the current read cursor. -/
structure Stream where
  data : List Nat
  pos : Nat
deriving DecidableEq

/-- get_size from ape.c: the stream length (regular files). -/
def get_size (s : Stream) : Nat := s.data.length

/-- lseek with SEEK_SET: fails on a negative target offset. -/
def lseek_set (s : Stream) (off : Int) : Option Stream :=
  if 0 ≤ off then some {s with pos := off.toNat} else none

/-- lseek with SEEK_END: fails when the target offset is negative. -/
def lseek_end (s : Stream) (off : Int) : Option Stream :=
  if 0 ≤ (s.data.length : Int) + off then
    some {s with pos := ((s.data.length : Int) + off).toNat}
  else none

/-- read_all from file.h as used by ape.c: read up to n bytes at the cursor,
advancing it by the number of bytes actually available. -/
def read_all (s : Stream) (n : Nat) : List Nat × Stream :=
  let got := (s.data.drop s.pos).take n
  (got, {s with pos := s.pos + got.length})

/-- The byte-at-a-time preamble matcher of find_ape_tag_slow: `i` is the
index of the current byte as the C int holds it (pos + i, wrapped at 32
bits), `m` the current partial match length, reset to 0 on a mismatching
byte and incremented on a matching byte.  The result is the C int return
value: -1 when the stream ends without a match, otherwise the value of
pos + i + 1 - 8 computed in wrapping int arithmetic, which equals the
absolute match offset only while that offset fits a signed 32-bit int. -/
def scanGo : List Nat → Int → Nat → Int
  | [], _, _ => -1
  | b :: bs, i, m =>
    if b = preambleBytes.getD m 0 then
      if m + 1 = 8 then wrap32s (i + 1 - 8) else scanGo bs (wrap32s (i + 1)) (m + 1)
    else scanGo bs (wrap32s (i + 1)) 0

/-- One chunk of the matcher: either the found (wrapped) return value or the
carried state (wrapped index, partial match length) at the chunk boundary. -/
def scanGoP : List Nat → Int → Nat → Int ⊕ (Int × Nat)
  | [], i, m => Sum.inr (i, m)
  | b :: bs, i, m =>
    if b = preambleBytes.getD m 0 then
      if m + 1 = 8 then Sum.inl (wrap32s (i + 1 - 8)) else scanGoP bs (wrap32s (i + 1)) (m + 1)
    else scanGoP bs (wrap32s (i + 1)) 0

/-- The matcher run over an arbitrary chunking of the stream, carrying the
partial-match state across chunk boundaries as find_ape_tag_slow does. -/
def scanChunks : List (List Nat) → Int → Nat → Int
  | [], _, _ => -1
  | c :: cs, i, m =>
    match scanGoP c i m with
    | Sum.inl off => off
    | Sum.inr im => scanChunks cs im.1 im.2

/-- Continuation of the chunked scan: a found value stays found, carried
state continues on the remaining bytes. -/
def contChunk (rest : List Nat) : Int ⊕ (Int × Nat) → Int
  | Sum.inl off => off
  | Sum.inr im => scanGo rest im.1 im.2

/-- The number of bytes the scan loop consumes from the file descriptor: up
to and including the byte completing a match, or the whole stream.  The fd
position is an off_t advanced by read itself, so it is exact even where the
int offset bookkeeping wraps. -/
def scanPos : List Nat → Nat → Nat
  | [], _ => 0
  | b :: bs, m =>
    if b = preambleBytes.getD m 0 then
      if m + 1 = 8 then 1 else scanPos bs (m + 1) + 1
    else scanPos bs 0 + 1

/-- find_ape_tag_slow from ape.c: seek to the start, scan forward for the
preamble; the int result is -1 or the wrapped match offset.  The cursor is
left at the end of the last 4096-byte chunk read: the chunk in which a match
completed, or end of stream. -/
def find_ape_tag_slow (s : Stream) : Int × Stream :=
  (scanGo s.data 0 0,
    {s with pos := min s.data.length (4096 * ((scanPos s.data 0 - 1) / 4096) + 4096)})

/-- ape_parse_one header codec: check the preamble on a 32-byte block and read
the four little-endian fields. -/
def ape_parse_header (b : List Nat) : Option ape_header :=
  if b.take 8 = preambleBytes then
    some ⟨get_le32 b 8, get_le32 b 12, get_le32 b 16, get_le32 b 20⟩
  else none

/-- read_header from ape.c: read 32 bytes at the cursor and parse them. -/
def read_header (s : Stream) : Option ape_header × Stream :=
  let r := read_all s 32
  if r.1.length = 32 then (ape_parse_header r.1, r.2) else (none, r.2)

/-- find_ape_tag from ape.c: try the fixed end-of-file position, then, when
permitted, the slow forward scan; on success the stream is positioned right
after the 32-byte header block. -/
def find_ape_tag (s : Stream) (slow : Bool) : Option ape_header × Stream :=
  match lseek_end s (-32) with
  | none => (none, s)
  | some s1 =>
    match read_header s1 with
    | (some h, s2) => (some h, s2)
    | (none, s2) =>
      if slow then
        let r := find_ape_tag_slow s2
        if r.1 = -1 then (none, r.2)
        else
          match lseek_set r.2 r.1 with
          | none => (none, r.2)
          | some s4 => read_header s4
      else (none, s2)

/-- ASCII lower-casing of one byte, as strcasecmp compares. -/
def lowerByte (b : Nat) : Nat := if 65 ≤ b ∧ b ≤ 90 then b + 32 else b

/-- Case-insensitive equality of two byte strings (strcasecmp returning 0). -/
def caseEq (a b : List Nat) : Prop := a.map lowerByte = b.map lowerByte

instance (a b : List Nat) : Decidable (caseEq a b) := by unfold caseEq; infer_instance

/-- The literal key "record date". -/
def recordDateBytes : List Nat := [114, 101, 99, 111, 114, 100, 32, 100, 97, 116, 101]

/-- The literal key "year". -/
def yearBytes : List Nat := [121, 101, 97, 114]

/-- The literal key "date". -/
def dateBytes : List Nat := [100, 97, 116, 101]

/-- Observable contents of a C string: the bytes up to the first 0. -/
def cstr (v : List Nat) : List Nat := v.takeWhile (fun b => b != 0)

/-- strlen as the C code observes a value buffer. -/
def strlen_c (v : List Nat) : Nat := (cstr v).length

/-- The key aliasing and date truncation of ape_parse_one (lines 191 to 212):
a key case-insensitively equal to "record date" or "year" becomes "date"; a
value under a (possibly rewritten) key case-insensitively equal to "date"
whose strlen exceeds 4 has byte 4 overwritten with 0. -/
def normalize_entry (key val : List Nat) : List Nat × List Nat :=
  let key2 := if caseEq key recordDateBytes ∨ caseEq key yearBytes then dateBytes else key
  let val2 := if caseEq key2 dateBytes ∧ 4 < strlen_c val then val.set 4 0 else val
  (key2, val2)

/-- Modelled from the spec: xstrndup and xstrdup (xmalloc.h, outside this
tree) copy the requested byte count verbatim out of the buffer; the value is
exactly `value_length` raw bytes and the key exactly the bytes before the
terminator. -/
def extractBytes (buf : List Nat) (p : Int) (n : Nat) : List Nat :=
  (List.range n).map fun (j : Nat) => byteAt buf (p + (j : Int))

/-- The key terminator scan of ape_parse_one: advance while below the bound
and the byte is nonzero. -/
def keyScanAux (buf : List Nat) (p : Int) : Nat → Nat → Nat
  | 0, k => k
  | rem + 1, k => if byteAt buf (p + (k : Int)) ≠ 0 then keyScanAux buf p rem (k + 1) else k

/-- key_len as computed by ape_parse_one: the first zero byte at or after `p`,
bounded by `m`. -/
def keyScan (buf : List Nat) (p : Int) (m : Nat) : Nat := keyScanAux buf p m 0

/-- max_key_len as ape_parse_one computes it: the subtraction mixes int and
uint32_t, so it is performed modulo 2^32 and reinterpreted as a signed int. -/
def max_key_len (size pos1 : Int) (val_len : Nat) : Int :=
  wrap32s (size - pos1 - (val_len : Int) - 1)

/-- The entry loop of ape_parse_one.  Returns the C return value (new offset,
or -1) together with the decoded entry when one is produced.  The fuel bounds
the number of loop iterations; each genuine iteration consumes at least 9
bytes, so `size + 1` iterations are never exhausted on in-bounds input. -/
def parseLoop (buf : List Nat) (size : Int) : Int → Nat → Int × Option (List Nat × List Nat)
  | _, 0 => (-1, none)
  | pos, fuel + 1 =>
    if 8 < wrap32s (size - pos) then
      let val_len := get_le32 buf pos
      let flags := get_le32 buf (pos + 4)
      let m := max_key_len size (pos + 8) val_len
      if m < 0 then (-1, none)
      else
        let key_len := keyScan buf (pos + 8) m.toNat
        if byteAt buf (pos + 8 + (key_len : Int)) ≠ 0 then (-1, none)
        else if ¬ AF_IS_UTF8 flags then
          parseLoop buf size (wrap32s (pos + 8 + (key_len : Int) + 1 + (val_len : Int))) fuel
        else
          let key := extractBytes buf (pos + 8) key_len
          let pos2 := wrap32s (pos + 8 + (key_len : Int) + 1)
          let value := extractBytes buf pos2 val_len
          (wrap32s (pos2 + (val_len : Int)), some (normalize_entry key value))
    else (-1, none)

/-- ape_parse_one from ape.c, starting at offset 0 of the given buffer. -/
def ape_parse_one (buf : List Nat) (size : Int) : Int × Option (List Nat × List Nat) :=
  parseLoop buf size 0 (size.toNat + 1)

/-- ape_get_comment from ape.c: end when the cursor has reached the declared
size (the comparison converts the int cursor to uint32_t); otherwise decode
one entry at the cursor and advance by the parser's return value. -/
def ape_get_comment (ape : APE) : Option (List Nat × List Nat) × APE :=
  if ape.header.size ≤ uns32 ape.pos then (none, ape)
  else
    let r := ape_parse_one ((ape.buf.getD []).drop ape.pos.toNat)
      (wrap32s ((ape.header.size : Int) - ape.pos))
    if r.1 < 0 then (none, ape)
    else (r.2, {ape with pos := wrap32s (ape.pos + r.1)})

/-- The layout decision of ape_read_tags: with a footer-terminated layout seek
to end_of_stream minus header.size, otherwise stay right after the header. -/
def layoutSeek (s : Stream) (h : ape_header) : Option Stream :=
  if AF_IS_FOOTER h.flags then lseek_set s ((get_size s : Int) - (h.size : Int)) else some s

/-- The tail of ape_read_tags: the 1 MiB cap, the body allocation and read,
and the conversion of header.count to the int return value. -/
def readBody (ape : APE) (s : Stream) : Int × APE × Stream :=
  if 1048576 < ape.header.size then (-1, ape, s)
  else
    let r := read_all s ape.header.size
    let ape2 := {ape with buf := some r.1}
    if r.1.length = ape.header.size then (wrap32s (ape.header.count : Int), ape2, r.2)
    else (-1, ape2, r.2)

/-- ape_read_tags from ape.c.  Every path flows through the trailing restore
of the cursor saved on entry, mirroring the single fail label of the C code.
The C stores the saved position in an int (old_pos), so positions at or
above 2^31 are truncated by the off_t to int conversion and the restoring
seek then fails, leaving the cursor unrestored. -/
def ape_read_tags (ape : APE) (s : Stream) (slow : Bool) : Int × APE × Stream :=
  let old := wrap32s (s.pos : Int)
  let r :=
    match find_ape_tag s slow with
    | (none, s1) => (-1, ape, s1)
    | (some h, s1) =>
      let ape1 := {ape with header := h}
      match layoutSeek s1 h with
      | none => (-1, ape1, s1)
      | some s2 => readBody ape1 s2
  (r.1, r.2.1, (lseek_set r.2.2 old).getD r.2.2)

/-! Concrete inputs used by witnesses and counterexamples. -/

/-- A 32-byte file that is exactly a footer-terminated tag of size 32 and
count 5: preamble, version 2000, size 32, count 5, flags 0, reserved. -/
def F32 : List Nat :=
  preambleBytes ++ [208, 7, 0, 0, 32, 0, 0, 0, 5, 0, 0, 0, 0, 0, 0, 0, 0, 0, 0, 0, 0, 0, 0, 0]

/-- The same file with the count field set to 4294967295. -/
def F32c : List Nat :=
  preambleBytes ++ [208, 7, 0, 0, 32, 0, 0, 0, 255, 255, 255, 255, 0, 0, 0, 0, 0, 0, 0, 0, 0, 0, 0, 0]

/-- A 36-byte file with a header-only tag (flags bit 29 set): 32-byte header
with size 4 and count 1, followed by the 4 body bytes. -/
def F2 : List Nat :=
  preambleBytes ++ [208, 7, 0, 0, 4, 0, 0, 0, 1, 0, 0, 0, 0, 0, 0, 32, 0, 0, 0, 0, 0, 0, 0, 0] ++
    [10, 20, 30, 40]

/-- The byte string "AAPETAGEXAPETAGEX": contains the preamble at offset 1
(overlapping a partial match) and at offset 9. -/
def aapeList : List Nat :=
  [65, 65, 80, 69, 84, 65, 71, 69, 88, 65, 80, 69, 84, 65, 71, 69, 88]

/-- A 23-byte tag body holding one UTF-8 entry: key "year", value the ten
bytes of "1999-08-11". -/
def B23 : List Nat :=
  [10, 0, 0, 0, 0, 0, 0, 0, 121, 101, 97, 114, 0, 49, 57, 57, 57, 45, 48, 56, 45, 49, 49]

/-- A 12-byte tag body holding one UTF-8 entry: key "a", value "xy". -/
def B12 : List Nat := [2, 0, 0, 0, 0, 0, 0, 0, 97, 0, 120, 121]

/-- A hostile 17-byte tag body: declared value_length 4294967295, flags 0,
an empty key, then arbitrary bytes. -/
def B17f : List Nat := [255, 255, 255, 255, 0, 0, 0, 0, 0, 1, 1, 1, 1, 1, 1, 1, 1]

/-- A handle as left by a successful body read of B17f (size 17). -/
def apeC1 : APE := ⟨some B17f, 0, ⟨2000, 17, 1, 0⟩⟩

/-- A handle as left by a successful body read of B12 (size 12). -/
def apeW : APE := ⟨some B12, 0, ⟨2000, 12, 1, 0⟩⟩

/-! Arithmetic helper lemmas. -/

theorem wrap32s_spec (x : Int) :
    ∃ k : Int, wrap32s x = x - 4294967296 * k ∧
      -2147483648 ≤ wrap32s x ∧ wrap32s x < 2147483648 := by
  refine ⟨(x + 2147483648) / 4294967296, ?_, ?_, ?_⟩
  · unfold wrap32s
    rw [Int.emod_def]
    ring
  · unfold wrap32s
    have := Int.emod_nonneg (x + 2147483648) (by norm_num : (4294967296 : Int) ≠ 0)
    omega
  · unfold wrap32s
    have := Int.emod_lt_of_pos (x + 2147483648) (by norm_num : (0 : Int) < 4294967296)
    omega

theorem wrap32s_id {x : Int} (h1 : -2147483648 ≤ x) (h2 : x < 2147483648) :
    wrap32s x = x := by
  unfold wrap32s
  rw [Int.emod_eq_of_lt (by omega) (by omega)]
  omega

theorem wrap32s_wrap_add (x y : Int) : wrap32s (wrap32s x + y) = wrap32s (x + y) := by
  unfold wrap32s
  omega

theorem byteAt_lt (buf : List Nat) (i : Int) : byteAt buf i < 256 := by
  unfold byteAt
  split
  · exact Nat.mod_lt _ (by norm_num)
  · norm_num

theorem get_le32_lt (buf : List Nat) (p : Int) : get_le32 buf p < 4294967296 := by
  unfold get_le32
  have h0 := byteAt_lt buf p
  have h1 := byteAt_lt buf (p + 1)
  have h2 := byteAt_lt buf (p + 2)
  have h3 := byteAt_lt buf (p + 3)
  omega

theorem keyScanAux_le (buf : List Nat) (p : Int) :
    ∀ rem k, keyScanAux buf p rem k ≤ k + rem := by
  intro rem
  induction rem with
  | zero => intro k; simp [keyScanAux]
  | succ n ih =>
    intro k
    unfold keyScanAux
    split
    · have := ih (k + 1)
      omega
    · omega

theorem keyScan_le (buf : List Nat) (p : Int) (m : Nat) : keyScan buf p m ≤ m := by
  have := keyScanAux_le buf p m 0
  unfold keyScan
  omega

/-! List helper lemmas about extraction, set and C strings. -/

theorem extract_length (buf : List Nat) (p : Int) (n : Nat) :
    (extractBytes buf p n).length = n := by simp [extractBytes]

theorem extract_getD (buf : List Nat) (p : Int) {j n : Nat} (h : j < n) :
    (extractBytes buf p n).getD j 0 = byteAt buf (p + (j : Int)) := by
  unfold extractBytes
  rw [List.getD_eq_getElem?_getD, List.getElem?_map, List.getElem?_range h]
  rfl

theorem set_getD_ne (l : List Nat) {j : Nat} (h : j ≠ 4) :
    (l.set 4 0).getD j 0 = l.getD j 0 := by
  rw [List.getD_eq_getElem?_getD, List.getD_eq_getElem?_getD,
    List.getElem?_set_ne (by omega)]

theorem set_getD_self (l : List Nat) (h : 4 < l.length) :
    (l.set 4 0).getD 4 0 = 0 := by
  rw [List.getD_eq_getElem?_getD, List.getElem?_set_self (by omega)]
  rfl

theorem normalize_len (key val : List Nat) :
    ((normalize_entry key val).2).length = val.length := by
  unfold normalize_entry
  simp only []
  split
  · split
    · exact List.length_set _ _ _
    · rfl
  · split
    · exact List.length_set _ _ _
    · rfl

theorem normalize_getD_ne (key val : List Nat) {j : Nat} (hj4 : j ≠ 4) :
    ((normalize_entry key val).2).getD j 0 = val.getD j 0 := by
  unfold normalize_entry
  simp only []
  split
  · split
    · exact set_getD_ne _ hj4
    · rfl
  · split
    · exact set_getD_ne _ hj4
    · rfl

theorem normalize_getD4 (key val : List Nat) (h4 : 4 < val.length) :
    ((normalize_entry key val).2).getD 4 0 = val.getD 4 0 ∨
      (caseEq (normalize_entry key val).1 dateBytes ∧
        ((normalize_entry key val).2).getD 4 0 = 0) := by
  unfold normalize_entry
  simp only []
  split
  · split
    next hcond => exact Or.inr ⟨hcond.1, set_getD_self _ h4⟩
    next hcond => exact Or.inl rfl
  · split
    next hcond => exact Or.inr ⟨hcond.1, set_getD_self _ h4⟩
    next hcond => exact Or.inl rfl

theorem cstr_length_le (v : List Nat) : (cstr v).length ≤ v.length := by
  induction v with
  | nil => simp [cstr]
  | cons a l ih =>
    unfold cstr at ih ⊢
    rw [List.takeWhile_cons]
    split
    · simpa using ih
    · simp

theorem cstr_set4 (v : List Nat) (h : 4 < (cstr v).length) :
    cstr (v.set 4 0) = (cstr v).take 4 := by
  match v with
  | [] => simp [cstr] at h
  | [a] => have := cstr_length_le [a]; simp at this; omega
  | [a, b] => have := cstr_length_le [a, b]; simp at this; omega
  | [a, b, c] => have := cstr_length_le [a, b, c]; simp at this; omega
  | [a, b, c, d] => have := cstr_length_le [a, b, c, d]; simp at this; omega
  | a :: b :: c :: d :: e :: rest =>
    have hset : (a :: b :: c :: d :: e :: rest).set 4 0 = a :: b :: c :: d :: 0 :: rest := rfl
    rw [hset]
    unfold cstr at h ⊢
    by_cases ha : (a != 0) = true
    · by_cases hb : (b != 0) = true
      · by_cases hc : (c != 0) = true
        · by_cases hd : (d != 0) = true
          · simp [List.takeWhile_cons, ha, hb, hc, hd]
          · simp [List.takeWhile_cons, ha, hb, hc, hd] at h
        · simp [List.takeWhile_cons, ha, hb, hc] at h
      · simp [List.takeWhile_cons, ha, hb] at h
    · simp [List.takeWhile_cons, ha] at h

/-! Lemmas about the slow-scan preamble matcher. -/

theorem scanGo_sound : ∀ (data : List Nat) (a m : Nat) (r : Int), m ≤ a → m < 8 →
    scanGo data (wrap32s (a : Int)) m = r → ¬ r = -1 →
    ∃ t, t < data.length ∧ 7 ≤ a + t ∧ r = wrap32s ((a : Int) + (t : Int) - 7) ∧
      ((7 ≤ t ∧ ∀ j, j < 8 → data.getD (t - 7 + j) 0 = preambleBytes.getD j 0) ∨
       (t + m = 7 ∧ ∀ j, m ≤ j → j < 8 → data.getD (j - m) 0 = preambleBytes.getD j 0)) := by
  intro data
  induction data with
  | nil =>
    intro a m r _ _ hscan hne
    unfold scanGo at hscan
    omega
  | cons b bs ih =>
    intro a m r hma hm8 hscan hne
    unfold scanGo at hscan
    by_cases hb : b = preambleBytes.getD m 0
    · rw [if_pos hb] at hscan
      by_cases hfin : m + 1 = 8
      · rw [if_pos hfin] at hscan
        have hr : r = wrap32s ((a : Int) + (0 : Int) - 7) := by
          rw [← hscan, show wrap32s (a : Int) + 1 - 8 = wrap32s (a : Int) + (-7) by ring,
            wrap32s_wrap_add]
          ring_nf
        refine ⟨0, by simp, by omega, hr, Or.inr ⟨by omega, fun j hj1 hj2 => ?_⟩⟩
        have hjm : j = m := by omega
        subst hjm
        simpa using hb
      · rw [if_neg hfin] at hscan
        rw [show wrap32s (wrap32s (a : Int) + 1) = wrap32s ((a + 1 : Nat) : Int) by
          rw [wrap32s_wrap_add]; push_cast; ring_nf] at hscan
        obtain ⟨t, htlen, htalen, hr, hdisj⟩ := ih (a + 1) (m + 1) r (by omega) (by omega)
          hscan hne
        refine ⟨t + 1, by simpa using htlen, by omega, by rw [hr]; push_cast; ring_nf, ?_⟩
        rcases hdisj with ⟨ht7, hbytes⟩ | ⟨ht7, hbytes⟩
        · refine Or.inl ⟨by omega, fun j hj => ?_⟩
          have hidx : t + 1 - 7 + j = (t - 7 + j) + 1 := by omega
          rw [hidx, List.getD_cons_succ]
          exact hbytes j hj
        · refine Or.inr ⟨by omega, fun j hj1 hj2 => ?_⟩
          by_cases hjm : j = m
          · subst hjm
            simpa using hb
          · have hidx : j - m = (j - (m + 1)) + 1 := by omega
            rw [hidx, List.getD_cons_succ]
            exact hbytes j (by omega) hj2
    · rw [if_neg hb] at hscan
      rw [show wrap32s (wrap32s (a : Int) + 1) = wrap32s ((a + 1 : Nat) : Int) by
        rw [wrap32s_wrap_add]; push_cast; ring_nf] at hscan
      obtain ⟨t, htlen, htalen, hr, hdisj⟩ := ih (a + 1) 0 r (by omega) (by omega) hscan hne
      refine ⟨t + 1, by simpa using htlen, by omega, by rw [hr]; push_cast; ring_nf,
        Or.inl ⟨?_, ?_⟩⟩
      · rcases hdisj with ⟨ht7, _⟩ | ⟨ht7, _⟩ <;> omega
      · intro j hj
        rcases hdisj with ⟨ht7, hbytes⟩ | ⟨ht7, hbytes⟩
        · have hidx : t + 1 - 7 + j = (t - 7 + j) + 1 := by omega
          rw [hidx, List.getD_cons_succ]
          exact hbytes j hj
        · have ht : t = 7 := by omega
          subst ht
          have hidx : 7 + 1 - 7 + j = j + 1 := by omega
          rw [hidx, List.getD_cons_succ]
          have := hbytes j (by omega) hj
          simpa using this

theorem scanGo_append (c rest : List Nat) : ∀ i m,
    scanGo (c ++ rest) i m = contChunk rest (scanGoP c i m) := by
  induction c with
  | nil => intro i m; simp [scanGoP, contChunk]
  | cons b bs ih =>
    intro i m
    simp only [List.cons_append]
    unfold scanGo scanGoP
    by_cases hb : b = preambleBytes.getD m 0
    · rw [if_pos hb, if_pos hb]
      by_cases hfin : m + 1 = 8
      · rw [if_pos hfin, if_pos hfin]; rfl
      · rw [if_neg hfin, if_neg hfin]
        exact ih (wrap32s (i + 1)) (m + 1)
    · rw [if_neg hb, if_neg hb]
      exact ih (wrap32s (i + 1)) 0

theorem scanChunks_flatten : ∀ (cs : List (List Nat)) (i : Int) (m : Nat),
    scanChunks cs i m = scanGo cs.flatten i m := by
  intro cs
  induction cs with
  | nil => intro i m; simp [scanChunks, scanGo]
  | cons c cs ih =>
    intro i m
    rw [List.flatten_cons, scanGo_append c cs.flatten i m]
    unfold scanChunks
    cases h : scanGoP c i m with
    | inl off => rfl
    | inr im =>
      exact ih im.1 im.2

/-! The central bound on the item decoder: whatever the buffer holds, the
offset ape_parse_one returns never exceeds the size it was given. -/

theorem parseLoop_rc_le (buf : List Nat) (size : Int) (hs0 : 0 ≤ size) (hs1 : size ≤ 1048576) :
    ∀ fuel pos, -2147483648 ≤ pos → pos ≤ size → (parseLoop buf size pos fuel).1 ≤ size := by
  intro fuel
  induction fuel with
  | zero =>
    intro pos h1 h2
    simp only [parseLoop]
    omega
  | succ n ih =>
    intro pos h1 h2
    unfold parseLoop
    by_cases hg : 8 < wrap32s (size - pos)
    · rw [if_pos hg]
      obtain ⟨kg, hkg, hkg1, hkg2⟩ := wrap32s_spec (size - pos)
      have hvl := get_le32_lt buf pos
      have hvl0 : 0 ≤ (get_le32 buf pos : Int) := Int.natCast_nonneg _
      by_cases hm : max_key_len size (pos + 8) (get_le32 buf pos) < 0
      · rw [if_pos hm]
        omega
      · rw [if_neg hm]
        have hmspec : max_key_len size (pos + 8) (get_le32 buf pos) =
            wrap32s (size - (pos + 8) - (get_le32 buf pos : Int) - 1) := rfl
        obtain ⟨km, hkm, hkm1, hkm2⟩ :=
          wrap32s_spec (size - (pos + 8) - (get_le32 buf pos : Int) - 1)
        rw [hmspec] at hm
        have hkl := keyScan_le buf (pos + 8)
          (wrap32s (size - (pos + 8) - (get_le32 buf pos : Int) - 1)).toNat
        rw [hmspec]
        by_cases ht : byteAt buf
            (pos + 8 + (keyScan buf (pos + 8)
              (wrap32s (size - (pos + 8) - (get_le32 buf pos : Int) - 1)).toNat : Int)) ≠ 0
        · rw [if_pos ht]
          omega
        · rw [if_neg ht]
          by_cases hu : AF_IS_UTF8 (get_le32 buf (pos + 4))
          · rw [if_neg (by simpa using hu)]
            obtain ⟨k2, hk2, hk21, hk22⟩ := wrap32s_spec (pos + 8 +
              (keyScan buf (pos + 8)
                (wrap32s (size - (pos + 8) - (get_le32 buf pos : Int) - 1)).toNat : Int) + 1)
            obtain ⟨k3, hk3, hk31, hk32⟩ := wrap32s_spec (wrap32s (pos + 8 +
              (keyScan buf (pos + 8)
                (wrap32s (size - (pos + 8) - (get_le32 buf pos : Int) - 1)).toNat : Int) + 1) +
              (get_le32 buf pos : Int))
            simp only []
            omega
          · rw [if_pos (by simpa using hu)]
            obtain ⟨ks, hks, hks1, hks2⟩ := wrap32s_spec (pos + 8 +
              (keyScan buf (pos + 8)
                (wrap32s (size - (pos + 8) - (get_le32 buf pos : Int) - 1)).toNat : Int) + 1 +
              (get_le32 buf pos : Int))
            apply ih
            · exact hks1
            · omega
    · rw [if_neg hg]
      omega

/-! Claim theorems. -/

/-- C1: the claim says that whenever the declared value_length makes
max_key_len negative in exact integer arithmetic, iteration stops and signals
end.  On the 17-byte body B17f the exact value 17 - 8 - 4294967295 - 1 is
negative, yet the max_key_len the code computes (in wrapped 32-bit
arithmetic) is nonnegative, the corrupt check is bypassed, and the call
returns an entry and advances the cursor to 8 instead of signalling end. -/
theorem C1_corrupt_check_bypassed :
    ((17 : Int) - 8 - 4294967295 - 1 < 0) ∧ 0 ≤ max_key_len 17 8 4294967295 ∧
      ∃ v, (ape_get_comment apeC1).1 = some ([], v) ∧ (ape_get_comment apeC1).2.pos = 8 := by
  exact ⟨by norm_num, by decide, extractBytes B17f 9 4294967295, rfl, rfl⟩

/-- C2 counterexample: with the caller's cursor at 2147483648 (a position a
seekable stream can legitimately hold), the off_t to int conversion of the
saved position wraps it to -2147483648, the restoring seek fails, and after
a read that otherwise succeeds (it returns count 5) the cursor is left at
32, not at its original value. -/
theorem C2_counterexample :
    (ape_read_tags ape_new ⟨F32, 2147483648⟩ false).1 = 5 ∧
      (ape_read_tags ape_new ⟨F32, 2147483648⟩ false).2.2.pos = 32 ∧
      ¬ (32 = 2147483648) := by decide

/-- C2 amended: for every call whose starting cursor is below 2^31 (so the
int that saves it does not truncate), the stream's cursor after the call
equals its value before the call, on every exit path; at cursors at or above
2^31 the saved int wraps negative, the restoring seek fails, and the cursor
is left unrestored. -/
theorem C2_cursor_restored (ape : APE) (s : Stream) (slow : Bool)
    (hpos : s.pos < 2147483648) :
    (ape_read_tags ape s slow).2.2.pos = s.pos := by
  have hw : wrap32s (s.pos : Int) = (s.pos : Int) := by
    apply wrap32s_id
    · have : (0 : Int) ≤ (s.pos : Int) := Int.natCast_nonneg _
      omega
    · exact_mod_cast hpos
  unfold ape_read_tags lseek_set
  rw [hw]
  simp

/-- C2 witness: with the cursor at 7 on the 32-byte file F32 the cursor is
restored to 7 after the call. -/
theorem C2_witness : (ape_read_tags ape_new ⟨F32, 7⟩ false).2.2.pos = 7 :=
  C2_cursor_restored ape_new ⟨F32, 7⟩ false (by decide)

/-- C3 counterexample: the stream "AAPETAGEXAPETAGEX" contains the preamble
at offset 1 (its first occurrence) and not at offset 0, yet the slow scan
reports the occurrence at offset 9, so the scan does not return the offset of
the first occurrence of the preamble. -/
theorem C3_counterexample :
    (aapeList.drop 1).take 8 = preambleBytes ∧ ¬ aapeList.take 8 = preambleBytes ∧
      (find_ape_tag_slow ⟨aapeList, 0⟩).1 = 9 := by decide

/-- C3 amended: whenever the slow scan signals a match (returns a value
other than -1), the returned int is the absolute file offset of an
occurrence of the 8-byte preamble reduced to a signed 32-bit int by the
scanner's int arithmetic - equal to that absolute offset exactly when the
offset is below 2^31 - and the matcher state, reset to 0 on a mismatching
byte and incremented on a matching byte, gives the same result however the
stream is split into read chunks.  A stream containing the preamble may be
missed when an occurrence overlaps a partial match, so the returned
occurrence is not always the first, and offsets at or above 2^31 wrap. -/
theorem C3_scan_sound_chunk_independent :
    (∀ (data : List Nat) (r : Int), scanGo data 0 0 = r → ¬ r = -1 →
      ∃ o : Nat, r = wrap32s ((o : Int)) ∧ ((o : Int) < 2147483648 → r = (o : Int)) ∧
        ∀ j, j < 8 → data.getD (o + j) 0 = preambleBytes.getD j 0) ∧
    (∀ cs : List (List Nat), scanChunks cs 0 0 = scanGo cs.flatten 0 0) := by
  constructor
  · intro data r hscan hne
    have hscan0 : scanGo data (wrap32s ((0 : Nat) : Int)) 0 = r := by
      rw [show wrap32s ((0 : Nat) : Int) = 0 by decide]
      exact hscan
    obtain ⟨t, htlen, hta, hr, hdisj⟩ := scanGo_sound data 0 0 r (by omega) (by omega)
      hscan0 hne
    have ht7 : 7 ≤ t := by omega
    refine ⟨t - 7, ?_, ?_, ?_⟩
    · rw [hr]
      congr 1
      push_cast
      omega
    · intro hsmall
      rw [hr, show ((0 : Nat) : Int) + (t : Int) - 7 = ((t - 7 : Nat) : Int) by push_cast; omega]
      exact wrap32s_id (by have : (0 : Int) ≤ ((t - 7 : Nat) : Int) := Int.natCast_nonneg _; omega)
        hsmall
    · intro j hj
      rcases hdisj with ⟨_, hbytes⟩ | ⟨htm, hbytes⟩
      · exact hbytes j hj
      · have ht : t = 7 := by omega
        have : t - 7 + j = j - 0 := by omega
        rw [this]
        exact hbytes j (by omega) hj
  · exact fun cs => scanChunks_flatten cs 0 0

/-- C3 witness: on a 9-byte stream holding the preamble at offset 1 the scan
returns 1, and the soundness conclusion is witnessed there; chunking a
stream does not change the scan result. -/
theorem C3_witness :
    (∃ o : Nat, (1 : Int) = wrap32s ((o : Int)) ∧ ((o : Int) < 2147483648 → (1 : Int) = (o : Int)) ∧
      ∀ j, j < 8 →
        ([0, 65, 80, 69, 84, 65, 71, 69, 88] : List Nat).getD (o + j) 0 =
          preambleBytes.getD j 0) ∧
    scanChunks [[0, 65, 80], [69, 84, 65, 71, 69, 88]] 0 0 =
      scanGo ([[0, 65, 80], [69, 84, 65, 71, 69, 88]] : List (List Nat)).flatten 0 0 :=
  ⟨C3_scan_sound_chunk_independent.1 [0, 65, 80, 69, 84, 65, 71, 69, 88] 1 (by decide)
      (by decide),
    C3_scan_sound_chunk_independent.2 [[0, 65, 80], [69, 84, 65, 71, 69, 88]]⟩

/-- C4: the cursor invariant 0 ≤ cursor ≤ header.size holds on a fresh handle
(cursor 0) and is preserved by every ape_get_comment call, whatever the body
buffer holds, for any handle whose declared size respects the reader's 1 MiB
cap. -/
theorem C4_cursor_invariant : ape_new.pos = 0 ∧ ∀ ape : APE, 0 ≤ ape.pos →
    ape.pos ≤ (ape.header.size : Int) → ape.header.size ≤ 1048576 →
    0 ≤ (ape_get_comment ape).2.pos ∧ (ape_get_comment ape).2.pos ≤ (ape.header.size : Int) := by
  refine ⟨rfl, fun ape h0 h1 hcap => ?_⟩
  unfold ape_get_comment
  by_cases hguard : ape.header.size ≤ uns32 ape.pos
  · rw [if_pos hguard]
    exact ⟨h0, h1⟩
  · rw [if_neg hguard]
    have hcast : ((ape.header.size : Int)) ≤ 1048576 := by exact_mod_cast hcap
    have huns : uns32 ape.pos = ape.pos.toNat := by
      unfold uns32
      rw [Int.emod_eq_of_lt h0 (by omega)]
    have hlt : ape.pos < (ape.header.size : Int) := by
      rw [huns] at hguard
      omega
    have hsz : wrap32s ((ape.header.size : Int) - ape.pos) = (ape.header.size : Int) - ape.pos :=
      wrap32s_id (by omega) (by omega)
    rw [hsz]
    have hrc := parseLoop_rc_le ((ape.buf.getD []).drop ape.pos.toNat)
      ((ape.header.size : Int) - ape.pos) (by omega) (by omega)
      ((((ape.header.size : Int) - ape.pos).toNat + 1)) 0 (by norm_num) (by omega)
    simp only [ape_parse_one]
    by_cases hneg : (parseLoop ((ape.buf.getD []).drop ape.pos.toNat)
        ((ape.header.size : Int) - ape.pos) 0
        (((ape.header.size : Int) - ape.pos).toNat + 1)).1 < 0
    · rw [if_pos hneg]
      exact ⟨h0, h1⟩
    · rw [if_neg hneg]
      have hid : wrap32s (ape.pos + (parseLoop ((ape.buf.getD []).drop ape.pos.toNat)
          ((ape.header.size : Int) - ape.pos) 0
          (((ape.header.size : Int) - ape.pos).toNat + 1)).1) =
          ape.pos + (parseLoop ((ape.buf.getD []).drop ape.pos.toNat)
          ((ape.header.size : Int) - ape.pos) 0
          (((ape.header.size : Int) - ape.pos).toNat + 1)).1 :=
        wrap32s_id (by omega) (by omega)
      simp only [hid]
      constructor
      · omega
      · omega

/-- C4 witness: on the concrete handle apeW (size 12, one valid entry) the
cursor stays within 0 and header.size after one ape_get_comment call. -/
theorem C4_witness :
    0 ≤ (ape_get_comment apeW).2.pos ∧ (ape_get_comment apeW).2.pos ≤ (apeW.header.size : Int) :=
  C4_cursor_invariant.2 apeW (by decide) (by decide) (by decide)

/-- C5: a located tag whose header.size exceeds 1048576 makes ape_read_tags
fail without touching the body buffer; with header.size within the cap (and
the body bytes present on the stream) a buffer of exactly header.size bytes
is allocated and filled from the stream. -/
theorem C5_size_cap (ape : APE) (s : Stream) (slow : Bool) (h : ape_header) (s1 : Stream)
    (hf : find_ape_tag s slow = (some h, s1)) :
    (1048576 < h.size → (ape_read_tags ape s slow).1 = -1 ∧
        (ape_read_tags ape s slow).2.1.buf = ape.buf) ∧
    (∀ s2, layoutSeek s1 h = some s2 → h.size ≤ 1048576 →
      s2.pos + h.size ≤ s2.data.length →
      (ape_read_tags ape s slow).2.1.buf = some ((s2.data.drop s2.pos).take h.size) ∧
      ((s2.data.drop s2.pos).take h.size).length = h.size ∧
      (ape_read_tags ape s slow).1 = wrap32s (h.count : Int)) := by
  constructor
  · intro hcap
    cases hls : layoutSeek s1 h with
    | none => simp [ape_read_tags, hf, hls]
    | some s2 => simp [ape_read_tags, hf, hls, readBody, hcap]
  · intro s2 hls hcap hav
    have hlen : ((s2.data.drop s2.pos).take h.size).length = h.size := by
      simp [List.length_take, List.length_drop]
      omega
    simp [ape_read_tags, hf, hls, readBody, read_all, Nat.not_lt.mpr hcap, hlen]

/-- C5 witness: on the 32-byte file F32 (size 32, count 5) the size check
passes, a 32-byte buffer is filled, and the count is returned. -/
theorem C5_witness :
    (ape_read_tags ape_new ⟨F32, 0⟩ false).2.1.buf = some ((F32.drop 0).take 32) ∧
      ((F32.drop 0).take 32).length = 32 ∧
      (ape_read_tags ape_new ⟨F32, 0⟩ false).1 = wrap32s 5 :=
  (C5_size_cap ape_new ⟨F32, 0⟩ false ⟨2000, 32, 5, 0⟩ ⟨F32, 32⟩ (by decide)).2
    ⟨F32, 0⟩ (by decide) (by decide) (by decide)

/-- C6: with tag-level flags bit 29 clear the body is read from offset
end_of_stream minus header.size; with bit 29 set the body is read forward
from the position right after the 32-byte header block with no further
seek. -/
theorem C6_layout (ape : APE) (s : Stream) (slow : Bool) (h : ape_header) (s1 : Stream)
    (hf : find_ape_tag s slow = (some h, s1)) (hcap : h.size ≤ 1048576) :
    (AF_IS_FOOTER h.flags → h.size ≤ s1.data.length →
      (ape_read_tags ape s slow).2.1.buf =
        some ((s1.data.drop (s1.data.length - h.size)).take h.size) ∧
      (ape_read_tags ape s slow).1 = wrap32s (h.count : Int)) ∧
    (¬ AF_IS_FOOTER h.flags → s1.pos + h.size ≤ s1.data.length →
      (ape_read_tags ape s slow).2.1.buf = some ((s1.data.drop s1.pos).take h.size) ∧
      (ape_read_tags ape s slow).1 = wrap32s (h.count : Int)) := by
  constructor
  · intro hfoot hsz
    have hseek : layoutSeek s1 h = some {s1 with pos := s1.data.length - h.size} := by
      simp [layoutSeek, hfoot, lseek_set, get_size]
      omega
    have hlen : ((s1.data.drop (s1.data.length - h.size)).take h.size).length = h.size := by
      simp [List.length_take, List.length_drop]
      omega
    simp [ape_read_tags, hf, hseek, readBody, read_all, Nat.not_lt.mpr hcap, hlen]
  · intro hfoot hav
    have hseek : layoutSeek s1 h = some s1 := by
      simp [layoutSeek, hfoot]
    have hlen : ((s1.data.drop s1.pos).take h.size).length = h.size := by
      simp [List.length_take, List.length_drop]
      omega
    simp [ape_read_tags, hf, hseek, readBody, read_all, Nat.not_lt.mpr hcap, hlen]

/-- C6 witness: the footer-terminated file F32 is read from offset
length - 32 = 0, and the header-only file F2 (flags bit 29 set) is read from
the position 32 right after its header. -/
theorem C6_witness :
    ((ape_read_tags ape_new ⟨F32, 0⟩ false).2.1.buf =
        some ((F32.drop (F32.length - 32)).take 32) ∧
      (ape_read_tags ape_new ⟨F32, 0⟩ false).1 = wrap32s 5) ∧
    ((ape_read_tags ape_new ⟨F2, 0⟩ true).2.1.buf = some ((F2.drop 32).take 4) ∧
      (ape_read_tags ape_new ⟨F2, 0⟩ true).1 = wrap32s 1) :=
  ⟨(C6_layout ape_new ⟨F32, 0⟩ false ⟨2000, 32, 5, 0⟩ ⟨F32, 32⟩ (by decide) (by decide)).1
      (by decide) (by decide),
    (C6_layout ape_new ⟨F2, 0⟩ true ⟨2000, 4, 1, 536870912⟩ ⟨F2, 32⟩ (by decide) (by decide)).2
      (by decide) (by decide)⟩

/-- C7 counterexample: on the file F32c the tag is located, the size check
passes and the full body is read (the buffer is filled), the header count
field is 4294967295, yet ape_read_tags returns -1: the returned value
neither equals header.count nor is distinguishable from the failure
outcome. -/
theorem C7_counterexample :
    (ape_read_tags ape_new ⟨F32c, 0⟩ false).1 = -1 ∧
      (ape_read_tags ape_new ⟨F32c, 0⟩ false).2.1.header.count = 4294967295 ∧
      (ape_read_tags ape_new ⟨F32c, 0⟩ false).2.1.buf = some F32c ∧
      ¬ ((-1 : Int) = 4294967295) := by decide

/-- C7 amended: on every successful read the value returned to the caller is
header.count converted to a signed 32-bit int; when header.count is below
2^31 it equals header.count exactly and is distinguishable from the failure
value -1, while larger counts wrap (and 4294967295 collides with -1). -/
theorem C7_count_conversion (ape : APE) (s : Stream) (slow : Bool) (h : ape_header)
    (s1 s2 : Stream) (hf : find_ape_tag s slow = (some h, s1))
    (hls : layoutSeek s1 h = some s2) (hcap : h.size ≤ 1048576)
    (hav : s2.pos + h.size ≤ s2.data.length) :
    (ape_read_tags ape s slow).1 = wrap32s (h.count : Int) ∧
    (h.count < 2147483648 →
      (ape_read_tags ape s slow).1 = (h.count : Int) ∧
      ¬ (ape_read_tags ape s slow).1 = -1) := by
  have hlen : ((s2.data.drop s2.pos).take h.size).length = h.size := by
    simp [List.length_take, List.length_drop]
    omega
  have hrc : (ape_read_tags ape s slow).1 = wrap32s (h.count : Int) := by
    simp [ape_read_tags, hf, hls, readBody, read_all, Nat.not_lt.mpr hcap, hlen]
  refine ⟨hrc, fun hsmall => ?_⟩
  have hid : wrap32s (h.count : Int) = (h.count : Int) := by
    apply wrap32s_id
    · have : (0 : Int) ≤ (h.count : Int) := Int.natCast_nonneg _
      omega
    · exact_mod_cast hsmall
  constructor
  · rw [hrc, hid]
  · rw [hrc, hid]
    have : (0 : Int) ≤ (h.count : Int) := Int.natCast_nonneg _
    omega

/-- C7 witness: on the file F32 (count 5) the successful read returns exactly
5, which differs from the failure value -1. -/
theorem C7_witness :
    (ape_read_tags ape_new ⟨F32, 0⟩ false).1 = ((5 : Nat) : Int) ∧
      ¬ (ape_read_tags ape_new ⟨F32, 0⟩ false).1 = -1 :=
  (C7_count_conversion ape_new ⟨F32, 0⟩ false ⟨2000, 32, 5, 0⟩ ⟨F32, 32⟩ ⟨F32, 0⟩
      (by decide) (by decide) (by decide) (by decide)).2 (by decide)

/-- C8 counterexample: the body B23 holds the UTF-8 entry key "year", value
"1999-08-11"; the entry returned has its value byte 4 overwritten with 0 by
the date truncation, so the returned value is not the value_length raw bytes
copied verbatim from the buffer. -/
theorem C8_counterexample :
    (ape_parse_one B23 23).2 = some (dateBytes, [49, 57, 57, 57, 0, 48, 56, 45, 49, 49]) ∧
      extractBytes B23 13 10 = [49, 57, 57, 57, 45, 48, 56, 45, 49, 49] ∧
      ¬ ([49, 57, 57, 57, 0, 48, 56, 45, 49, 49] : List Nat) =
        [49, 57, 57, 57, 45, 48, 56, 45, 49, 49] := by decide

/-- C8 amended: every entry the decoder returns carries a value of exactly
value_length bytes whose content at every index other than 4 is the raw
buffer byte after the key's zero terminator, with no validation; at index 4
the byte is either still the raw buffer byte or, only when the normalized key
is case-insensitively "date", the 0 written by the date truncation. -/
theorem C8_value_exact_bytes :
    ∀ (fuel : Nat) (buf : List Nat) (size pos rc : Int) (k v : List Nat),
    parseLoop buf size pos fuel = (rc, some (k, v)) →
    ∃ p0 : Int, ∃ kl : Nat,
      byteAt buf (p0 + 8 + (kl : Int)) = 0 ∧
      v.length = get_le32 buf p0 ∧
      (∀ j : Nat, j < get_le32 buf p0 → j ≠ 4 →
        v.getD j 0 = byteAt buf (wrap32s (p0 + 8 + (kl : Int) + 1) + (j : Int))) ∧
      (4 < get_le32 buf p0 →
        (v.getD 4 0 = byteAt buf (wrap32s (p0 + 8 + (kl : Int) + 1) + 4) ∨
         (caseEq k dateBytes ∧ v.getD 4 0 = 0))) := by
  intro fuel
  induction fuel with
  | zero =>
    intro buf size pos rc k v h
    simp [parseLoop] at h
  | succ n ih =>
    intro buf size pos rc k v h
    unfold parseLoop at h
    by_cases hg : 8 < wrap32s (size - pos)
    · rw [if_pos hg] at h
      by_cases hm : max_key_len size (pos + 8) (get_le32 buf pos) < 0
      · rw [if_pos hm] at h
        simp at h
      · rw [if_neg hm] at h
        by_cases ht : byteAt buf
            (pos + 8 + (keyScan buf (pos + 8)
              (max_key_len size (pos + 8) (get_le32 buf pos)).toNat : Int)) ≠ 0
        · rw [if_pos ht] at h
          simp at h
        · rw [if_neg ht] at h
          by_cases hu : AF_IS_UTF8 (get_le32 buf (pos + 4))
          · rw [if_neg (by simpa using hu)] at h
            simp only [Prod.mk.injEq, Option.some.injEq] at h
            obtain ⟨hrc, hkv⟩ := h
            have hk := congrArg Prod.fst hkv
            have hv := congrArg Prod.snd hkv
            simp only [] at hk hv
            refine ⟨pos, keyScan buf (pos + 8)
              (max_key_len size (pos + 8) (get_le32 buf pos)).toNat, by simpa using ht, ?_, ?_, ?_⟩
            · rw [← hv, normalize_len, extract_length]
            · intro j hj hj4
              rw [← hv, normalize_getD_ne _ _ hj4]
              exact extract_getD _ _ hj
            · intro h4
              have h4len : 4 < (extractBytes buf
                  (wrap32s (pos + 8 + ((keyScan buf (pos + 8)
                    (max_key_len size (pos + 8) (get_le32 buf pos)).toNat) : Int) + 1))
                  (get_le32 buf pos)).length := by
                rw [extract_length]
                exact h4
              rcases normalize_getD4 _ _ h4len with hcase | ⟨hdate, hzero⟩
              · left
                rw [← hv, hcase]
                exact extract_getD _ _ h4
              · right
                rw [← hv, ← hk]
                exact ⟨hdate, hzero⟩
          · rw [if_pos (by simpa using hu)] at h
            exact ih buf size _ rc k v h
    · rw [if_neg hg] at h
      simp at h

/-- C8 witness: the entry key "a", value "xy" decoded from B12 satisfies the
exact-bytes property. -/
theorem C8_witness :
    ∃ p0 : Int, ∃ kl : Nat,
      byteAt B12 (p0 + 8 + (kl : Int)) = 0 ∧
      ([120, 121] : List Nat).length = get_le32 B12 p0 ∧
      (∀ j : Nat, j < get_le32 B12 p0 → j ≠ 4 →
        ([120, 121] : List Nat).getD j 0 =
          byteAt B12 (wrap32s (p0 + 8 + (kl : Int) + 1) + (j : Int))) ∧
      (4 < get_le32 B12 p0 →
        (([120, 121] : List Nat).getD 4 0 =
            byteAt B12 (wrap32s (p0 + 8 + (kl : Int) + 1) + 4) ∨
         (caseEq [97] dateBytes ∧ ([120, 121] : List Nat).getD 4 0 = 0))) :=
  C8_value_exact_bytes 13 B12 12 0 12 [97] [120, 121] (by decide)

/-- C9: a key case-insensitively equal to "record date" or "year" is
rewritten to "date" and every other key is unchanged; when the possibly
rewritten key is case-insensitively "date" and the value (as the C string the
caller sees) is longer than 4, the value is truncated to its first 4
characters, and otherwise the value is unchanged. -/
theorem C9_normalization (key val : List Nat) :
    ((caseEq key recordDateBytes ∨ caseEq key yearBytes) →
      (normalize_entry key val).1 = dateBytes) ∧
    (¬ (caseEq key recordDateBytes ∨ caseEq key yearBytes) →
      (normalize_entry key val).1 = key) ∧
    (caseEq (normalize_entry key val).1 dateBytes → 4 < (cstr val).length →
      cstr (normalize_entry key val).2 = (cstr val).take 4) ∧
    (caseEq (normalize_entry key val).1 dateBytes → (cstr val).length ≤ 4 →
      (normalize_entry key val).2 = val) ∧
    (¬ caseEq (normalize_entry key val).1 dateBytes → (normalize_entry key val).2 = val) := by
  refine ⟨?_, ?_, ?_, ?_, ?_⟩
  · intro hkey
    unfold normalize_entry
    simp [hkey]
  · intro hkey
    unfold normalize_entry
    simp [hkey]
  · intro hdate h4
    have hcond : caseEq (normalize_entry key val).1 dateBytes ∧ 4 < strlen_c val :=
      ⟨hdate, by simpa [strlen_c] using h4⟩
    have hval : (normalize_entry key val).2 = val.set 4 0 := by
      unfold normalize_entry at hcond ⊢
      simp only []
      rw [if_pos]
      exact hcond
    rw [hval]
    exact cstr_set4 val h4
  · intro hdate hle
    have hval : (normalize_entry key val).2 = val := by
      unfold normalize_entry
      simp only []
      rw [if_neg]
      intro hcond
      have : 4 < (cstr val).length := by simpa [strlen_c] using hcond.2
      omega
    exact hval
  · intro hdate
    unfold normalize_entry at hdate ⊢
    simp only [] at hdate ⊢
    rw [if_neg]
    intro hcond
    exact hdate hcond.1

/-- C9 witness: key "Year" with value "1999-08-11 12:34:56" normalizes to key
"date" with the value truncated to "1999". -/
theorem C9_witness :
    (normalize_entry [89, 101, 97, 114]
        [49, 57, 57, 57, 45, 48, 56, 45, 49, 49, 32, 49, 50, 58, 51, 52, 58, 53, 54]).1 =
      dateBytes ∧
    cstr (normalize_entry [89, 101, 97, 114]
        [49, 57, 57, 57, 45, 48, 56, 45, 49, 49, 32, 49, 50, 58, 51, 52, 58, 53, 54]).2 =
      (cstr [49, 57, 57, 57, 45, 48, 56, 45, 49, 49, 32, 49, 50, 58, 51, 52, 58, 53, 54]).take 4 :=
  ⟨(C9_normalization [89, 101, 97, 114]
        [49, 57, 57, 57, 45, 48, 56, 45, 49, 49, 32, 49, 50, 58, 51, 52, 58, 53, 54]).1
      (Or.inr (by decide)),
    (C9_normalization [89, 101, 97, 114]
        [49, 57, 57, 57, 45, 48, 56, 45, 49, 49, 32, 49, 50, 58, 51, 52, 58, 53, 54]).2.2.1
      (by decide) (by decide)⟩

/-- C10: calling ape_get_comment on a freshly created zero-initialized handle
signals end immediately and leaves the handle unchanged; no body buffer
exists to be accessed. -/
theorem C10_fresh_handle : ape_get_comment ape_new = (none, ape_new) ∧ ape_new.buf = none :=
  ⟨rfl, rfl⟩

end Ape
